import Mathlib

/-!
Shallow embedding of `src/tracking/tracker.py`: the `iou` box-overlap
function and the `MultiObjectTracker` class (greedy IoU matching, birth of
new tracks for unmatched detections, miss counting and pruning).

Modelling conventions:
* Python floats are modelled as rationals (`ℚ`); every arithmetic operation
  used by the tracker (+, -, *, /, max, min, comparisons) is exact on the
  inputs appearing here, so the rational model agrees with the code.
* A Python detection dict is modelled by the three keys the tracker reads:
  `category`, `bbox`, `score`; a missing key is `none`.
* `self.tracks : Dict[int, Track]` is modelled as an insertion-ordered
  association list of `Track` values (Python dicts preserve insertion
  order); `dictAssign` reproduces `d[k] = v` (overwrite in place if the key
  exists, append otherwise) and deletion/iteration follow list order.
-/

namespace ObjectTracking

/-- The three fields of a detection dict read by the tracker
(`det.get("category")`, `det.get("bbox")`, `det.get("score")`);
`none` models a missing key. -/
structure Detection where
  category : Option String
  bbox : Option (List ℚ)
  score : Option ℚ
deriving DecidableEq, Repr

/-- The `Track` dataclass of `tracker.py`. -/
structure Track where
  track_id : ℕ
  category : String
  bbox : List ℚ
  score : ℚ
  start_frame : ℤ
  last_frame : ℤ
  misses : ℕ
deriving DecidableEq, Repr

/-- `Track.age`: `last_frame - start_frame + 1`. -/
def Track.age (t : Track) : ℤ :=
  t.last_frame - t.start_frame + 1

/-- Python's built-in `max` on two numbers (first argument wins ties);
written with an explicit `if` so that concrete inputs evaluate. -/
def pymax (a b : ℚ) : ℚ := if b ≤ a then a else b

/-- Python's built-in `min` on two numbers (first argument wins ties). -/
def pymin (a b : ℚ) : ℚ := if a ≤ b then a else b

/-- The `iou` function of `tracker.py`: intersection over union of two
boxes; returns `0.0` unless both arguments have exactly 4 components. -/
def iou : List ℚ → List ℚ → ℚ
  | [ax1, ay1, ax2, ay2], [bx1, by1, bx2, by2] =>
    let inter_x1 := pymax ax1 bx1
    let inter_y1 := pymax ay1 by1
    let inter_x2 := pymin ax2 bx2
    let inter_y2 := pymin ay2 by2
    let inter_w := pymax 0 (inter_x2 - inter_x1)
    let inter_h := pymax 0 (inter_y2 - inter_y1)
    let inter_area := inter_w * inter_h
    let area_a := pymax 0 (ax2 - ax1) * pymax 0 (ay2 - ay1)
    let area_b := pymax 0 (bx2 - bx1) * pymax 0 (by2 - by1)
    let union := area_a + area_b - inter_area
    if union ≤ 0 then 0 else inter_area / union
  | _, _ => 0

/-- `MultiObjectTracker` state: configuration, the `tracks` dict
(insertion-ordered list) and the `_next_id` counter. -/
structure TrackerState where
  iou_threshold : ℚ
  max_missed : ℤ
  tracks : List Track
  next_id : ℕ
deriving DecidableEq, Repr

/-- `MultiObjectTracker.__init__`: empty track dict, `_next_id = 1`. -/
def mkTracker (iou_threshold : ℚ) (max_missed : ℤ) : TrackerState :=
  { iou_threshold := iou_threshold, max_missed := max_missed,
    tracks := [], next_id := 1 }

/-- `d[k] = v` on the tracks dict: overwrite the entry with the same key in
place if present, append otherwise. -/
def dictAssign (tracks : List Track) (t : Track) : List Track :=
  if tracks.any (fun u => u.track_id = t.track_id)
  then tracks.map (fun u => if u.track_id = t.track_id then t else u)
  else tracks ++ [t]

/-- `MultiObjectTracker._new_track`: build a track from the detection with
defaults (`"unknown"`, `[0,0,0,0]`, `0.0`), store it under its id, and
increment `_next_id`. -/
def newTrack (s : TrackerState) (det : Detection) (frame_id : ℤ) : TrackerState :=
  let track : Track :=
    { track_id := s.next_id,
      category := det.category.getD "unknown",
      bbox := det.bbox.getD [0, 0, 0, 0],
      score := det.score.getD 0,
      start_frame := frame_id,
      last_frame := frame_id,
      misses := 0 }
  { s with tracks := dictAssign s.tracks track, next_id := s.next_id + 1 }

/-- The category filter of `_match_detection`:
`if det_cat and track.category != det_cat: continue`
(a missing or empty detection category is falsy, so it never filters). -/
def catMismatch (det_cat : Option String) (track_cat : String) : Prop :=
  match det_cat with
  | none => False
  | some c => c ≠ "" ∧ track_cat ≠ c

instance (det_cat : Option String) (track_cat : String) :
    Decidable (catMismatch det_cat track_cat) := by
  unfold catMismatch
  cases det_cat <;> infer_instance

/-- `self.tracks[track_id]` lookup in the tracks dict. -/
def findTrack (tracks : List Track) (track_id : ℕ) : Option Track :=
  tracks.find? (fun t => t.track_id = track_id)

/-- One iteration of the candidate loop in `_match_detection`: keep the
running `(best_iou, best_track_id)` unless this candidate has the same
category and a strictly larger overlap. -/
def matchStep (tracks : List Track) (det_box : List ℚ) (det_cat : Option String)
    (best : ℚ × Option ℕ) (track_id : ℕ) : ℚ × Option ℕ :=
  match findTrack tracks track_id with
  | none => best
  | some track =>
    if catMismatch det_cat track.category then best
    else if best.1 < iou det_box track.bbox then (iou det_box track.bbox, some track_id)
    else best

/-- `MultiObjectTracker._match_detection`: greedy best-IoU candidate,
accepted only when `best_iou >= iou_threshold`; `None` when the detection
has no `bbox`. -/
def matchDetection (tracks : List Track) (iou_threshold : ℚ)
    (det : Detection) (candidates : List ℕ) : Option ℕ :=
  match det.bbox with
  | none => none
  | some det_box =>
    let best := candidates.foldl (matchStep tracks det_box det.category) (0, none)
    if best.2.isSome ∧ iou_threshold ≤ best.1 then best.2 else none

/-- Mutable state threaded through the association loop of `update`. -/
structure MatchState where
  tracks : List Track
  available : List ℕ
  matched_track_ids : List ℕ
  matched_detection_indices : List ℕ
deriving DecidableEq, Repr

/-- The in-place mutation of a matched track:
`bbox`/`score` from the detection (falling back to the old values),
`last_frame = frame_id`, `misses = 0`. -/
def applyMatch (det : Detection) (frame_id : ℤ) (match_id : ℕ) (t : Track) : Track :=
  if t.track_id = match_id then
    { t with bbox := det.bbox.getD t.bbox,
             score := det.score.getD t.score,
             last_frame := frame_id,
             misses := 0 }
  else t

/-- One iteration of the association loop of `update` for the indexed
detection `idx_det`: match it against the still-available tracks, and on a
match mutate the track, retire it from `available`, and record the track id
and detection index. -/
def assocStep (iou_threshold : ℚ) (frame_id : ℤ) (ms : MatchState)
    (idx_det : ℕ × Detection) : MatchState :=
  match matchDetection ms.tracks iou_threshold idx_det.2 ms.available with
  | none => ms
  | some match_id =>
    { tracks := ms.tracks.map (applyMatch idx_det.2 frame_id match_id),
      available := ms.available.erase match_id,
      matched_track_ids := match_id :: ms.matched_track_ids,
      matched_detection_indices := idx_det.1 :: ms.matched_detection_indices }

/-- The full association pass of `update` over the enumerated detections,
starting from all live tracks available and nothing matched. -/
def assocPass (s : TrackerState) (detections : List Detection)
    (frame_id : ℤ) : MatchState :=
  detections.enum.foldl (assocStep s.iou_threshold frame_id)
    { tracks := s.tracks,
      available := s.tracks.map Track.track_id,
      matched_track_ids := [],
      matched_detection_indices := [] }

/-- One iteration of the birth loop of `update`: skip detections whose
index was matched, otherwise `_new_track`. -/
def birthStep (frame_id : ℤ) (matched_idxs : List ℕ) (s : TrackerState)
    (idx_det : ℕ × Detection) : TrackerState :=
  if idx_det.1 ∈ matched_idxs then s else newTrack s idx_det.2 frame_id

/-- The full birth pass of `update` over the enumerated detections. -/
def birthPass (s : TrackerState) (detections : List Detection) (frame_id : ℤ)
    (matched_idxs : List ℕ) : TrackerState :=
  detections.enum.foldl (birthStep frame_id matched_idxs) s

/-- `track.misses += 1` for tracks not matched this frame. -/
def missTrack (matched_ids : List ℕ) (t : Track) : Track :=
  if t.track_id ∈ matched_ids then t else { t with misses := t.misses + 1 }

/-- The survival condition of the pruning loop: matched this frame, or
`misses <= max_missed` after the increment. -/
def keepTrack (max_missed : ℤ) (matched_ids : List ℕ) (t : Track) : Prop :=
  t.track_id ∈ matched_ids ∨ (t.misses : ℤ) ≤ max_missed

instance (max_missed : ℤ) (matched_ids : List ℕ) (t : Track) :
    Decidable (keepTrack max_missed matched_ids t) := by
  unfold keepTrack
  infer_instance

/-- The miss-increment-and-prune loop of `update`: unmatched tracks get
`misses += 1`, then every track with `misses > max_missed` is deleted. -/
def pruneTracks (max_missed : ℤ) (matched_ids : List ℕ)
    (tracks : List Track) : List Track :=
  (tracks.map (missTrack matched_ids)).filter
    (fun t => decide (keepTrack max_missed matched_ids t))

/-- `MultiObjectTracker.update`: association pass, birth pass, prune pass;
returns the new state and the snapshot list (the surviving tracks, whose
`to_event_details` dicts the Python code returns, in dict order). -/
def update (s : TrackerState) (detections : List Detection) (frame_id : ℤ) :
    TrackerState × List Track :=
  let ms := assocPass s detections frame_id
  let s1 := birthPass { s with tracks := ms.tracks } detections frame_id
    ms.matched_detection_indices
  let finalTracks := pruneTracks s.max_missed ms.matched_track_ids s1.tracks
  ({ s1 with tracks := finalTracks }, finalTracks)

/-- A sequence of `update` calls, for statements about a tracker's whole
lifetime. -/
def runUpdates (s : TrackerState) (calls : List (List Detection × ℤ)) :
    TrackerState :=
  calls.foldl (fun st c => (update st c.1 c.2).1) s

/-- The effect of one missed frame on a surviving track: only the miss
counter changes. -/
def incMiss (t : Track) : Track :=
  { t with misses := t.misses + 1 }

/-- Every live track id is below the `_next_id` counter (holds in every
reachable tracker state). -/
def idsBelow (s : TrackerState) : Prop :=
  ∀ t ∈ s.tracks, t.track_id < s.next_id

instance (s : TrackerState) : Decidable (idsBelow s) := by
  unfold idsBelow
  infer_instance

/-- The id discipline of a tracker state: ids are positive, below the
counter, pairwise distinct, and the counter is at least 1. -/
def Inv (s : TrackerState) : Prop :=
  (∀ t ∈ s.tracks, 1 ≤ t.track_id ∧ t.track_id < s.next_id) ∧
    (s.tracks.map Track.track_id).Nodup ∧ 1 ≤ s.next_id

instance (s : TrackerState) : Decidable (Inv s) := by
  unfold Inv
  infer_instance

/-! ### Basic lemmas about single steps -/

theorem applyMatch_track_id (det : Detection) (f : ℤ) (mid : ℕ) (t : Track) :
    (applyMatch det f mid t).track_id = t.track_id := by
  unfold applyMatch
  split <;> rfl

theorem missTrack_track_id (m : List ℕ) (t : Track) :
    (missTrack m t).track_id = t.track_id := by
  unfold missTrack
  split <;> rfl

theorem matchStep_cases (tracks : List Track) (box : List ℚ) (cat : Option String)
    (best : ℚ × Option ℕ) (tid : ℕ) :
    matchStep tracks box cat best tid = best ∨
    ∃ tr, findTrack tracks tid = some tr ∧ ¬ catMismatch cat tr.category ∧
      best.1 < iou box tr.bbox ∧
      matchStep tracks box cat best tid = (iou box tr.bbox, some tid) := by
  unfold matchStep
  cases h : findTrack tracks tid with
  | none => exact Or.inl rfl
  | some tr =>
    by_cases hc : catMismatch cat tr.category
    · exact Or.inl (by simp [hc])
    · by_cases hlt : best.1 < iou box tr.bbox
      · exact Or.inr ⟨tr, rfl, hc, hlt, by simp [hc, hlt]⟩
      · exact Or.inl (by simp [hc, hlt])

theorem foldl_matchStep_fst_le (tracks : List Track) (box : List ℚ)
    (cat : Option String) :
    ∀ (l : List ℕ) (best : ℚ × Option ℕ),
      best.1 ≤ (l.foldl (matchStep tracks box cat) best).1 := by
  intro l
  induction l with
  | nil => intro best; exact le_refl _
  | cons hd tl ih =>
    intro best
    rcases matchStep_cases tracks box cat best hd with h | ⟨tr, _, _, hlt, heq⟩
    · rw [List.foldl_cons, h]; exact ih best
    · rw [List.foldl_cons, heq]
      exact le_trans (le_of_lt hlt) (ih _)

theorem foldl_matchStep_isSome (tracks : List Track) (box : List ℚ)
    (cat : Option String) :
    ∀ (l : List ℕ) (best : ℚ × Option ℕ), best.2.isSome →
      ((l.foldl (matchStep tracks box cat) best).2).isSome := by
  intro l
  induction l with
  | nil => intro best h; exact h
  | cons hd tl ih =>
    intro best h
    rcases matchStep_cases tracks box cat best hd with heq | ⟨tr, _, _, _, heq⟩
    · rw [List.foldl_cons, heq]; exact ih best h
    · rw [List.foldl_cons, heq]; exact ih _ rfl

theorem foldl_matchStep_none_eq (tracks : List Track) (box : List ℚ)
    (cat : Option String) :
    ∀ (l : List ℕ) (best : ℚ × Option ℕ),
      ((l.foldl (matchStep tracks box cat) best).2) = none →
      l.foldl (matchStep tracks box cat) best = best := by
  intro l
  induction l with
  | nil => intro best _; rfl
  | cons hd tl ih =>
    intro best h
    rcases matchStep_cases tracks box cat best hd with heq | ⟨tr, _, _, _, heq⟩
    · rw [List.foldl_cons, heq] at h ⊢; exact ih best h
    · rw [List.foldl_cons, heq] at h
      have := foldl_matchStep_isSome tracks box cat tl (iou box tr.bbox, some hd) rfl
      rw [h] at this
      exact absurd this (by simp)

theorem foldl_matchStep_some_mem (tracks : List Track) (box : List ℚ)
    (cat : Option String) :
    ∀ (l : List ℕ) (best : ℚ × Option ℕ) (tid : ℕ),
      ((l.foldl (matchStep tracks box cat) best).2) = some tid →
      best.2 = some tid ∨ tid ∈ l := by
  intro l
  induction l with
  | nil => intro best tid h; exact Or.inl h
  | cons hd tl ih =>
    intro best tid h
    rcases matchStep_cases tracks box cat best hd with heq | ⟨tr, _, _, _, heq⟩
    · rw [List.foldl_cons, heq] at h
      rcases ih best tid h with h' | h'
      · exact Or.inl h'
      · exact Or.inr (List.mem_cons_of_mem _ h')
    · rw [List.foldl_cons, heq] at h
      rcases ih _ tid h with h' | h'
      · simp only [Option.some_inj] at h'
        exact Or.inr (h' ▸ List.mem_cons_self _ _)
      · exact Or.inr (List.mem_cons_of_mem _ h')

theorem foldl_matchStep_ge (tracks : List Track) (box : List ℚ)
    (cat : Option String) :
    ∀ (l : List ℕ) (best : ℚ × Option ℕ) (tid : ℕ) (tr : Track),
      tid ∈ l → findTrack tracks tid = some tr →
      ¬ catMismatch cat tr.category →
      iou box tr.bbox ≤ (l.foldl (matchStep tracks box cat) best).1 := by
  intro l
  induction l with
  | nil => intro best tid tr h; exact absurd h (List.not_mem_nil _)
  | cons hd tl ih =>
    intro best tid tr hmem hf hc
    rcases List.mem_cons.mp hmem with rfl | hmem'
    · have hstep : iou box tr.bbox ≤ (matchStep tracks box cat best tid).1 := by
        unfold matchStep
        rw [hf]
        by_cases hlt : best.1 < iou box tr.bbox
        · simp [hc, hlt]
        · simp [hc, hlt]
          exact le_of_not_lt hlt
      exact le_trans hstep (foldl_matchStep_fst_le tracks box cat tl _)
    · exact ih _ tid tr hmem' hf hc

theorem foldl_matchStep_sound (tracks : List Track) (box : List ℚ)
    (cat : Option String) :
    ∀ (l : List ℕ) (best : ℚ × Option ℕ),
      (0 ≤ best.1 ∧ ∀ tid, best.2 = some tid → ∃ tr,
        findTrack tracks tid = some tr ∧ ¬ catMismatch cat tr.category ∧
        best.1 = iou box tr.bbox ∧ 0 < best.1) →
      0 ≤ (l.foldl (matchStep tracks box cat) best).1 ∧
      ∀ tid, ((l.foldl (matchStep tracks box cat) best).2) = some tid → ∃ tr,
        findTrack tracks tid = some tr ∧ ¬ catMismatch cat tr.category ∧
        (l.foldl (matchStep tracks box cat) best).1 = iou box tr.bbox ∧
        0 < (l.foldl (matchStep tracks box cat) best).1 := by
  intro l
  induction l with
  | nil => intro best h; exact h
  | cons hd tl ih =>
    intro best h
    rcases matchStep_cases tracks box cat best hd with heq | ⟨tr, hf, hc, hlt, heq⟩
    · rw [List.foldl_cons, heq]; exact ih best h
    · rw [List.foldl_cons, heq]
      refine ih _ ⟨le_of_lt (lt_of_le_of_lt h.1 hlt), ?_⟩
      intro tid htid
      simp only [Option.some_inj] at htid
      exact htid ▸ ⟨tr, hf, hc, rfl, lt_of_le_of_lt h.1 hlt⟩

/-! ### Lemmas about `matchDetection` -/

theorem matchDetection_none_bbox (tracks : List Track) (thr : ℚ) (det : Detection)
    (cand : List ℕ) (h : det.bbox = none) :
    matchDetection tracks thr det cand = none := by
  unfold matchDetection
  rw [h]

theorem matchDetection_isSome_bbox (tracks : List Track) (thr : ℚ) (det : Detection)
    (cand : List ℕ) (tid : ℕ) (h : matchDetection tracks thr det cand = some tid) :
    det.bbox.isSome := by
  cases hb : det.bbox with
  | none => rw [matchDetection_none_bbox tracks thr det cand hb] at h; exact absurd h (by simp)
  | some box => rfl

theorem matchDetection_mem (tracks : List Track) (thr : ℚ) (det : Detection)
    (cand : List ℕ) (tid : ℕ) (h : matchDetection tracks thr det cand = some tid) :
    tid ∈ cand := by
  unfold matchDetection at h
  cases hb : det.bbox with
  | none => rw [hb] at h; exact absurd h (by simp)
  | some box =>
    rw [hb] at h
    simp only at h
    split at h
    · rcases foldl_matchStep_some_mem tracks box det.category cand (0, none) tid h with h' | h'
      · exact absurd h' (by simp)
      · exact h'
    · exact absurd h (by simp)

theorem matchDetection_isSome_of (tracks : List Track) (thr : ℚ) (det : Detection)
    (box : List ℚ) (cand : List ℕ) (tid : ℕ) (tr : Track)
    (hb : det.bbox = some box) (hmem : tid ∈ cand)
    (hf : findTrack tracks tid = some tr)
    (hc : ¬ catMismatch det.category tr.category)
    (hthr : thr ≤ iou box tr.bbox) (hpos : 0 < iou box tr.bbox) :
    ∃ mid, matchDetection tracks thr det cand = some mid := by
  unfold matchDetection
  rw [hb]
  simp only
  have hge : iou box tr.bbox ≤ (cand.foldl (matchStep tracks box det.category) (0, none)).1 :=
    foldl_matchStep_ge tracks box det.category cand (0, none) tid tr hmem hf hc
  cases h2 : (cand.foldl (matchStep tracks box det.category) (0, none)).2 with
  | none =>
    have := foldl_matchStep_none_eq tracks box det.category cand (0, none) h2
    rw [this] at hge
    exact absurd (lt_of_lt_of_le hpos hge) (by simp)
  | some mid =>
    refine ⟨mid, ?_⟩
    rw [if_pos ⟨rfl, le_trans hthr hge⟩]

theorem matchDetection_sound (tracks : List Track) (thr : ℚ) (det : Detection)
    (box : List ℚ) (cand : List ℕ) (mid : ℕ)
    (hb : det.bbox = some box)
    (h : matchDetection tracks thr det cand = some mid) :
    mid ∈ cand ∧ ∃ tr, findTrack tracks mid = some tr ∧
      ¬ catMismatch det.category tr.category ∧
      thr ≤ iou box tr.bbox ∧ 0 < iou box tr.bbox := by
  refine ⟨matchDetection_mem tracks thr det cand mid h, ?_⟩
  unfold matchDetection at h
  rw [hb] at h
  simp only at h
  split at h
  next hguard =>
    have hsound := foldl_matchStep_sound tracks box det.category cand (0, none)
      ⟨le_refl 0, by intro tid htid; exact absurd htid (by simp)⟩
    rcases hsound.2 mid h with ⟨tr, hf, hc, hfst, hpos⟩
    exact ⟨tr, hf, hc, by rw [← hfst]; exact hguard.2, by rw [← hfst]; exact hpos⟩
  next => exact absurd h (by simp)

/-! ### Lemmas about the association pass -/

theorem assocFold_ids (thr : ℚ) (f : ℤ) :
    ∀ (L : List (ℕ × Detection)) (ms : MatchState),
      ((L.foldl (assocStep thr f) ms).tracks).map Track.track_id =
        ms.tracks.map Track.track_id := by
  intro L
  induction L with
  | nil => intro ms; rfl
  | cons hd tl ih =>
    intro ms
    rw [List.foldl_cons, ih]
    unfold assocStep
    cases h : matchDetection ms.tracks thr hd.2 ms.available with
    | none => rfl
    | some mid =>
      simp only [List.map_map]
      exact List.map_congr_left (fun t _ => applyMatch_track_id hd.2 f mid t)

theorem assocFold_avail_matched (thr : ℚ) (f : ℤ) :
    ∀ (L : List (ℕ × Detection)) (ms : MatchState),
      ((L.foldl (assocStep thr f) ms).available ⊆ ms.available) ∧
      (∀ tid ∈ (L.foldl (assocStep thr f) ms).matched_track_ids,
        tid ∈ ms.matched_track_ids ∨ tid ∈ ms.available) := by
  intro L
  induction L with
  | nil => intro ms; exact ⟨fun x hx => hx, fun tid h => Or.inl h⟩
  | cons hd tl ih =>
    intro ms
    rw [List.foldl_cons]
    have hstep : (assocStep thr f ms hd).available ⊆ ms.available ∧
        ∀ tid ∈ (assocStep thr f ms hd).matched_track_ids,
          tid ∈ ms.matched_track_ids ∨ tid ∈ ms.available := by
      unfold assocStep
      cases h : matchDetection ms.tracks thr hd.2 ms.available with
      | none => exact ⟨fun x hx => hx, fun tid h => Or.inl h⟩
      | some mid =>
        refine ⟨List.erase_subset _ _, ?_⟩
        intro tid htid
        rcases List.mem_cons.mp htid with rfl | htid'
        · exact Or.inr (matchDetection_mem ms.tracks thr hd.2 ms.available tid h)
        · exact Or.inl htid'
    refine ⟨fun x hx => hstep.1 ((ih (assocStep thr f ms hd)).1 hx), ?_⟩
    intro tid htid
    rcases (ih (assocStep thr f ms hd)).2 tid htid with h' | h'
    · exact hstep.2 tid h'
    · exact Or.inr (hstep.1 h')

theorem assocFold_matched_misses (thr : ℚ) (f : ℤ) :
    ∀ (L : List (ℕ × Detection)) (ms : MatchState),
      (∀ t ∈ ms.tracks, t.track_id ∈ ms.matched_track_ids → t.misses = 0) →
      ∀ t ∈ (L.foldl (assocStep thr f) ms).tracks,
        t.track_id ∈ (L.foldl (assocStep thr f) ms).matched_track_ids →
        t.misses = 0 := by
  intro L
  induction L with
  | nil => intro ms h; exact h
  | cons hd tl ih =>
    intro ms h
    rw [List.foldl_cons]
    refine ih (assocStep thr f ms hd) ?_
    unfold assocStep
    cases hm : matchDetection ms.tracks thr hd.2 ms.available with
    | none => exact h
    | some mid =>
      intro u hu hmem
      simp only [List.mem_map] at hu
      rcases hu with ⟨t, ht, rfl⟩
      by_cases hid : t.track_id = mid
      · unfold applyMatch
        rw [if_pos hid]
      · have : (applyMatch hd.2 f mid t) = t := by unfold applyMatch; rw [if_neg hid]
        rw [this] at hmem ⊢
        rcases List.mem_cons.mp hmem with heq | hmem'
        · exact absurd heq hid
        · exact h t ht hmem'

theorem assocFold_idx_some (thr : ℚ) (f : ℤ) :
    ∀ (L : List (ℕ × Detection)) (ms : MatchState),
      ∀ i ∈ (L.foldl (assocStep thr f) ms).matched_detection_indices,
        i ∈ ms.matched_detection_indices ∨ ∃ d, (i, d) ∈ L ∧ d.bbox.isSome := by
  intro L
  induction L with
  | nil => intro ms i h; exact Or.inl h
  | cons hd tl ih =>
    intro ms i hi
    rw [List.foldl_cons] at hi
    rcases ih (assocStep thr f ms hd) i hi with h' | ⟨d, hd', hb⟩
    · unfold assocStep at h'
      cases hm : matchDetection ms.tracks thr hd.2 ms.available with
      | none => rw [hm] at h'; exact Or.inl h'
      | some mid =>
        rw [hm] at h'
        rcases List.mem_cons.mp h' with rfl | h''
        · exact Or.inr ⟨hd.2, List.mem_cons_self _ _,
            matchDetection_isSome_bbox ms.tracks thr hd.2 ms.available mid hm⟩
        · exact Or.inl h''
    · exact Or.inr ⟨d, List.mem_cons_of_mem _ hd', hb⟩

/-! ### Lemmas about the birth pass -/

theorem dictAssign_mem (ts : List Track) (t u : Track) (h : u ∈ dictAssign ts t) :
    u ∈ ts ∨ u = t := by
  unfold dictAssign at h
  split at h
  · rcases List.mem_map.mp h with ⟨v, hv, hvu⟩
    by_cases hid : v.track_id = t.track_id
    · rw [if_pos hid] at hvu; exact Or.inr hvu.symm
    · rw [if_neg hid] at hvu; exact Or.inl (hvu ▸ hv)
  · rcases List.mem_append.mp h with h' | h'
    · exact Or.inl h'
    · exact Or.inr (List.mem_singleton.mp h')

theorem dictAssign_mem_of_ne (ts : List Track) (t u : Track) (h : u ∈ ts)
    (hne : u.track_id ≠ t.track_id) : u ∈ dictAssign ts t := by
  unfold dictAssign
  split
  · exact List.mem_map.mpr ⟨u, h, by rw [if_neg hne]⟩
  · exact List.mem_append.mpr (Or.inl h)

theorem dictAssign_append (ts : List Track) (t : Track)
    (h : ∀ u ∈ ts, u.track_id ≠ t.track_id) : dictAssign ts t = ts ++ [t] := by
  have hna : (ts.any (fun u => u.track_id = t.track_id)) = false := by
    rw [List.any_eq_false]
    intro u hu
    simpa using h u hu
  unfold dictAssign
  simp [hna]

theorem newTrack_next_id (s : TrackerState) (det : Detection) (f : ℤ) :
    (newTrack s det f).next_id = s.next_id + 1 := rfl

theorem birthFold_next_id (f : ℤ) (matched : List ℕ) :
    ∀ (L : List (ℕ × Detection)) (s : TrackerState),
      (L.foldl (birthStep f matched) s).next_id =
        s.next_id + (L.filter (fun p => decide (p.1 ∉ matched))).length := by
  intro L
  induction L with
  | nil => intro s; rfl
  | cons hd tl ih =>
    intro s
    rw [List.foldl_cons]
    by_cases h : hd.1 ∈ matched
    · have hstep : birthStep f matched s hd = s := by unfold birthStep; rw [if_pos h]
      rw [hstep, ih s, List.filter_cons]
      simp [h]
    · have hstep : birthStep f matched s hd = newTrack s hd.2 f := by
        unfold birthStep; rw [if_neg h]
      rw [hstep, ih _, newTrack_next_id, List.filter_cons,
        if_pos (decide_eq_true h), List.length_cons]
      omega

theorem birthFold_next_id_le (f : ℤ) (matched : List ℕ)
    (L : List (ℕ × Detection)) (s : TrackerState) :
    s.next_id ≤ (L.foldl (birthStep f matched) s).next_id := by
  rw [birthFold_next_id]
  exact Nat.le_add_right _ _

theorem birthFold_tracks_mem (f : ℤ) (matched : List ℕ) :
    ∀ (L : List (ℕ × Detection)) (s : TrackerState),
      ∀ u ∈ (L.foldl (birthStep f matched) s).tracks,
        u ∈ s.tracks ∨ (u.misses = 0 ∧ s.next_id ≤ u.track_id ∧
          u.start_frame = f ∧ u.last_frame = f) := by
  intro L
  induction L with
  | nil => intro s u h; exact Or.inl h
  | cons hd tl ih =>
    intro s u hu
    rw [List.foldl_cons] at hu
    unfold birthStep at hu
    by_cases h : hd.1 ∈ matched
    · rw [if_pos h] at hu; exact ih s u hu
    · rw [if_neg h] at hu
      rcases ih _ u hu with h' | ⟨hm, hle, hs, hl⟩
      · rcases dictAssign_mem s.tracks _ u h' with h'' | rfl
        · exact Or.inl h''
        · exact Or.inr ⟨rfl, le_refl _, rfl, rfl⟩
      · exact Or.inr ⟨hm, le_trans (Nat.le_succ _) hle, hs, hl⟩

theorem birthFold_old_mem (f : ℤ) (matched : List ℕ) :
    ∀ (L : List (ℕ × Detection)) (s : TrackerState) (t : Track),
      t ∈ s.tracks → t.track_id < s.next_id →
      t ∈ (L.foldl (birthStep f matched) s).tracks := by
  intro L
  induction L with
  | nil => intro s t h _; exact h
  | cons hd tl ih =>
    intro s t ht hlt
    rw [List.foldl_cons]
    unfold birthStep
    by_cases h : hd.1 ∈ matched
    · rw [if_pos h]; exact ih s t ht hlt
    · rw [if_neg h]
      refine ih _ t ?_ (lt_trans hlt (Nat.lt_succ_self _))
      exact dictAssign_mem_of_ne _ _ t ht (Nat.ne_of_lt hlt)

theorem birthFold_inv (f : ℤ) (matched : List ℕ) :
    ∀ (L : List (ℕ × Detection)) (s : TrackerState),
      (∀ t ∈ s.tracks, 1 ≤ t.track_id ∧ t.track_id < s.next_id) →
      ((s.tracks.map Track.track_id).Nodup) → 1 ≤ s.next_id →
      (∀ t ∈ (L.foldl (birthStep f matched) s).tracks,
        1 ≤ t.track_id ∧ t.track_id < (L.foldl (birthStep f matched) s).next_id) ∧
      (((L.foldl (birthStep f matched) s).tracks.map Track.track_id).Nodup) ∧
      1 ≤ (L.foldl (birthStep f matched) s).next_id := by
  intro L
  induction L with
  | nil => intro s h1 h2 h3; exact ⟨h1, h2, h3⟩
  | cons hd tl ih =>
    intro s h1 h2 h3
    rw [List.foldl_cons]
    unfold birthStep
    by_cases h : hd.1 ∈ matched
    · rw [if_pos h]; exact ih s h1 h2 h3
    · rw [if_neg h]
      have happ : (newTrack s hd.2 f).tracks = s.tracks ++
          [{ track_id := s.next_id, category := hd.2.category.getD "unknown",
             bbox := hd.2.bbox.getD [0, 0, 0, 0], score := hd.2.score.getD 0,
             start_frame := f, last_frame := f, misses := 0 }] := by
        unfold newTrack
        exact dictAssign_append _ _ (fun u hu => Nat.ne_of_lt (h1 u hu).2)
      refine ih (newTrack s hd.2 f) ?_ ?_ ?_
      · rw [happ]
        intro t ht
        rcases List.mem_append.mp ht with h' | h'
        · exact ⟨(h1 t h').1, lt_trans (h1 t h').2 (Nat.lt_succ_self _)⟩
        · rw [List.mem_singleton.mp h']
          exact ⟨h3, Nat.lt_succ_self _⟩
      · rw [happ, List.map_append]
        rw [List.nodup_append]
        refine ⟨h2, List.nodup_singleton _, ?_⟩
        intro a ha hb
        simp only [List.map_cons, List.map_nil, List.mem_singleton] at hb
        rcases List.mem_map.mp ha with ⟨t, ht, rfl⟩
        exact absurd hb (Nat.ne_of_lt (h1 t ht).2)
      · exact le_trans h3 (Nat.le_succ _)

/-! ### Lemmas about the prune pass -/

theorem mem_pruneTracks (mm : ℤ) (matched : List ℕ) (ts : List Track) (u : Track) :
    u ∈ pruneTracks mm matched ts ↔
      (∃ t ∈ ts, missTrack matched t = u) ∧ keepTrack mm matched u := by
  unfold pruneTracks
  rw [List.mem_filter]
  simp only [List.mem_map, decide_eq_true_eq]

theorem missTrack_not_matched (matched : List ℕ) (t : Track)
    (h : t.track_id ∉ matched) : missTrack matched t = incMiss t := by
  unfold missTrack incMiss
  rw [if_neg h]

theorem missTrack_matched (matched : List ℕ) (t : Track)
    (h : t.track_id ∈ matched) : missTrack matched t = t := by
  unfold missTrack
  rw [if_pos h]

/-! ### Unfolding lemmas for `update` -/

theorem update_fst_tracks (s : TrackerState) (dets : List Detection) (f : ℤ) :
    (update s dets f).1.tracks = (update s dets f).2 := rfl

theorem update_snd (s : TrackerState) (dets : List Detection) (f : ℤ) :
    (update s dets f).2 =
      pruneTracks s.max_missed (assocPass s dets f).matched_track_ids
        (birthPass { s with tracks := (assocPass s dets f).tracks } dets f
          (assocPass s dets f).matched_detection_indices).tracks := rfl

theorem update_fst_next_id (s : TrackerState) (dets : List Detection) (f : ℤ) :
    (update s dets f).1.next_id =
      (birthPass { s with tracks := (assocPass s dets f).tracks } dets f
        (assocPass s dets f).matched_detection_indices).next_id := rfl

theorem assocPass_ids (s : TrackerState) (dets : List Detection) (f : ℤ) :
    ((assocPass s dets f).tracks).map Track.track_id =
      s.tracks.map Track.track_id :=
  assocFold_ids s.iou_threshold f dets.enum _

theorem assocPass_matched_sub (s : TrackerState) (dets : List Detection) (f : ℤ) :
    ∀ tid ∈ (assocPass s dets f).matched_track_ids,
      tid ∈ s.tracks.map Track.track_id := by
  intro tid h
  rcases (assocFold_avail_matched s.iou_threshold f dets.enum _).2 tid h with h' | h'
  · exact absurd h' (List.not_mem_nil _)
  · exact h'

theorem assocPass_matched_misses (s : TrackerState) (dets : List Detection) (f : ℤ) :
    ∀ t ∈ (assocPass s dets f).tracks,
      t.track_id ∈ (assocPass s dets f).matched_track_ids → t.misses = 0 :=
  assocFold_matched_misses s.iou_threshold f dets.enum _
    (by intro t _ h; exact absurd h (List.not_mem_nil _))

/-! ### Shape analysis and bounds for `iou` -/

theorem pymax_eq (a b : ℚ) : pymax a b = max a b := by
  unfold pymax
  rcases le_total a b with h | h
  · rcases eq_or_lt_of_le h with rfl | hlt
    · simp
    · rw [if_neg (not_le_of_lt hlt), max_eq_right h]
  · rw [if_pos h, max_eq_left h]

theorem pymin_eq (a b : ℚ) : pymin a b = min a b := by
  unfold pymin
  rcases le_total a b with h | h
  · rw [if_pos h, min_eq_left h]
  · rcases eq_or_lt_of_le h with rfl | hlt
    · simp
    · rw [if_neg (not_le_of_lt hlt), min_eq_right h]

theorem iou_quad (a1 a2 a3 a4 b1 b2 b3 b4 : ℚ) :
    iou [a1, a2, a3, a4] [b1, b2, b3, b4] =
      (if max 0 (a3 - a1) * max 0 (a4 - a2) + max 0 (b3 - b1) * max 0 (b4 - b2) -
          max 0 (min a3 b3 - max a1 b1) * max 0 (min a4 b4 - max a2 b2) ≤ 0 then 0
       else max 0 (min a3 b3 - max a1 b1) * max 0 (min a4 b4 - max a2 b2) /
         (max 0 (a3 - a1) * max 0 (a4 - a2) + max 0 (b3 - b1) * max 0 (b4 - b2) -
          max 0 (min a3 b3 - max a1 b1) * max 0 (min a4 b4 - max a2 b2))) := by
  show (if _ ≤ 0 then (0 : ℚ) else _ / _) = _
  simp only [pymax_eq, pymin_eq]

theorem iou_cases (a b : List ℚ) :
    iou a b = 0 ∨ ∃ a1 a2 a3 a4 b1 b2 b3 b4,
      a = [a1, a2, a3, a4] ∧ b = [b1, b2, b3, b4] := by
  rcases a with _ | ⟨a1, _ | ⟨a2, _ | ⟨a3, _ | ⟨a4, _ | ⟨a5, arest⟩⟩⟩⟩⟩ <;>
    rcases b with _ | ⟨b1, _ | ⟨b2, _ | ⟨b3, _ | ⟨b4, _ | ⟨b5, brest⟩⟩⟩⟩⟩ <;>
    first
      | exact Or.inr ⟨a1, a2, a3, a4, b1, b2, b3, b4, rfl, rfl⟩
      | exact Or.inl rfl

theorem if_div_bounds (I U : ℚ) (h0 : 0 ≤ I) (hIU : I ≤ U) :
    0 ≤ (if U ≤ 0 then (0 : ℚ) else I / U) ∧
      (if U ≤ 0 then (0 : ℚ) else I / U) ≤ 1 := by
  split
  · exact ⟨le_refl 0, zero_le_one⟩
  · next h =>
    have hU : 0 < U := lt_of_not_le h
    exact ⟨div_nonneg h0 (le_of_lt hU), (div_le_one hU).mpr hIU⟩

theorem iou_quad_bounds (a1 a2 a3 a4 b1 b2 b3 b4 : ℚ) :
    0 ≤ iou [a1, a2, a3, a4] [b1, b2, b3, b4] ∧
      iou [a1, a2, a3, a4] [b1, b2, b3, b4] ≤ 1 := by
  have hiw0 : (0 : ℚ) ≤ max 0 (min a3 b3 - max a1 b1) := le_max_left _ _
  have hih0 : (0 : ℚ) ≤ max 0 (min a4 b4 - max a2 b2) := le_max_left _ _
  have hwa0 : (0 : ℚ) ≤ max 0 (a3 - a1) := le_max_left _ _
  have hha0 : (0 : ℚ) ≤ max 0 (a4 - a2) := le_max_left _ _
  have hwb0 : (0 : ℚ) ≤ max 0 (b3 - b1) := le_max_left _ _
  have hhb0 : (0 : ℚ) ≤ max 0 (b4 - b2) := le_max_left _ _
  have hiwa : max 0 (min a3 b3 - max a1 b1) ≤ max 0 (a3 - a1) :=
    max_le_max (le_refl 0) (sub_le_sub (min_le_left _ _) (le_max_left _ _))
  have hiha : max 0 (min a4 b4 - max a2 b2) ≤ max 0 (a4 - a2) :=
    max_le_max (le_refl 0) (sub_le_sub (min_le_left _ _) (le_max_left _ _))
  have hiwb : max 0 (min a3 b3 - max a1 b1) ≤ max 0 (b3 - b1) :=
    max_le_max (le_refl 0) (sub_le_sub (min_le_right _ _) (le_max_right _ _))
  have hihb : max 0 (min a4 b4 - max a2 b2) ≤ max 0 (b4 - b2) :=
    max_le_max (le_refl 0) (sub_le_sub (min_le_right _ _) (le_max_right _ _))
  have hIA : max 0 (min a3 b3 - max a1 b1) * max 0 (min a4 b4 - max a2 b2) ≤
      max 0 (a3 - a1) * max 0 (a4 - a2) :=
    mul_le_mul hiwa hiha hih0 hwa0
  have hIB : max 0 (min a3 b3 - max a1 b1) * max 0 (min a4 b4 - max a2 b2) ≤
      max 0 (b3 - b1) * max 0 (b4 - b2) :=
    mul_le_mul hiwb hihb hih0 hwb0
  have hI0 : (0 : ℚ) ≤ max 0 (min a3 b3 - max a1 b1) * max 0 (min a4 b4 - max a2 b2) :=
    mul_nonneg hiw0 hih0
  have hIU : max 0 (min a3 b3 - max a1 b1) * max 0 (min a4 b4 - max a2 b2) ≤
      max 0 (a3 - a1) * max 0 (a4 - a2) + max 0 (b3 - b1) * max 0 (b4 - b2) -
        max 0 (min a3 b3 - max a1 b1) * max 0 (min a4 b4 - max a2 b2) := by
    linarith
  rw [iou_quad]
  exact if_div_bounds _ _ hI0 hIU

theorem if_div_zero (I U : ℚ) (hI : I = 0) :
    (if U ≤ 0 then (0 : ℚ) else I / U) = 0 := by
  subst hI
  split
  · rfl
  · exact zero_div _

theorem iou_quad_degen_fst (x1 y1 x2 y2 b1 b2 b3 b4 : ℚ) (h : x2 ≤ x1 ∨ y2 ≤ y1) :
    iou [x1, y1, x2, y2] [b1, b2, b3, b4] = 0 := by
  rw [iou_quad]
  refine if_div_zero _ _ ?_
  rcases h with h | h
  · rw [max_eq_left (sub_nonpos.mpr
      (le_trans (min_le_left _ _) (le_trans h (le_max_left _ _)))), zero_mul]
  · rw [max_eq_left (sub_nonpos.mpr
      (le_trans (min_le_left _ _) (le_trans h (le_max_left _ _)))), mul_zero]

theorem iou_quad_degen_snd (x1 y1 x2 y2 b1 b2 b3 b4 : ℚ) (h : x2 ≤ x1 ∨ y2 ≤ y1) :
    iou [b1, b2, b3, b4] [x1, y1, x2, y2] = 0 := by
  rw [iou_quad]
  refine if_div_zero _ _ ?_
  rcases h with h | h
  · rw [max_eq_left (sub_nonpos.mpr
      (le_trans (min_le_right _ _) (le_trans h (le_max_right _ _)))), zero_mul]
  · rw [max_eq_left (sub_nonpos.mpr
      (le_trans (min_le_right _ _) (le_trans h (le_max_right _ _)))), mul_zero]

theorem iou_quad_arg_cases (a1 a2 a3 a4 : ℚ) (b : List ℚ) :
    (iou [a1, a2, a3, a4] b = 0 ∧ iou b [a1, a2, a3, a4] = 0) ∨
      ∃ b1 b2 b3 b4, b = [b1, b2, b3, b4] := by
  rcases b with _ | ⟨x1, _ | ⟨x2, _ | ⟨x3, _ | ⟨x4, _ | ⟨x5, rest⟩⟩⟩⟩⟩ <;>
    first
      | exact Or.inr ⟨x1, x2, x3, x4, rfl⟩
      | exact Or.inl ⟨rfl, rfl⟩

theorem iou_bounds (a b : List ℚ) : 0 ≤ iou a b ∧ iou a b ≤ 1 := by
  rcases iou_cases a b with h | ⟨a1, a2, a3, a4, b1, b2, b3, b4, rfl, rfl⟩
  · rw [h]; exact ⟨le_refl 0, zero_le_one⟩
  · exact iou_quad_bounds a1 a2 a3 a4 b1 b2 b3 b4

theorem iou_malformed (a b : List ℚ) (h : a.length ≠ 4 ∨ b.length ≠ 4) :
    iou a b = 0 := by
  rcases iou_cases a b with h0 | ⟨a1, a2, a3, a4, b1, b2, b3, b4, rfl, rfl⟩
  · exact h0
  · rcases h with h | h <;> simp at h

theorem assocStep_no_match (thr : ℚ) (f : ℤ) (ms : MatchState) (p : ℕ × Detection)
    (h : matchDetection ms.tracks thr p.2 ms.available = none) :
    assocStep thr f ms p = ms := by
  unfold assocStep
  rw [h]

theorem birthStep_unmatched (f : ℤ) (matched : List ℕ) (s : TrackerState)
    (p : ℕ × Detection) (h : p.1 ∉ matched) :
    birthStep f matched s p = newTrack s p.2 f := by
  unfold birthStep
  rw [if_neg h]

/-! ### Claim C9 -/

/-- C9: for every pair of input boxes, `iou` returns a value in `[0, 1]` and
never fails: if either argument does not have exactly 4 components the
result is `0`, and a box with zero or negative width or height (zero area)
yields overlap `0` with any other box, in either argument position. -/
theorem C9_iou_contract :
    (∀ a b : List ℚ, 0 ≤ iou a b ∧ iou a b ≤ 1) ∧
    (∀ a b : List ℚ, a.length ≠ 4 ∨ b.length ≠ 4 → iou a b = 0) ∧
    (∀ (x1 y1 x2 y2 : ℚ) (b : List ℚ), x2 - x1 ≤ 0 ∨ y2 - y1 ≤ 0 →
      iou [x1, y1, x2, y2] b = 0 ∧ iou b [x1, y1, x2, y2] = 0) := by
  refine ⟨iou_bounds, iou_malformed, ?_⟩
  intro x1 y1 x2 y2 b h
  have h' : x2 ≤ x1 ∨ y2 ≤ y1 := by
    rcases h with h | h
    · exact Or.inl (by linarith)
    · exact Or.inr (by linarith)
  rcases iou_quad_arg_cases x1 y1 x2 y2 b with ⟨h1, h2⟩ | ⟨b1, b2, b3, b4, rfl⟩
  · exact ⟨h1, h2⟩
  · exact ⟨iou_quad_degen_fst _ _ _ _ _ _ _ _ h',
      iou_quad_degen_snd _ _ _ _ _ _ _ _ h'⟩

/-- Witness for C9 at concrete boxes: an ordinary pair, a 3-component box,
and a zero-width box. -/
theorem C9_iou_contract_witness :
    (0 ≤ iou [0, 0, 2, 2] [1, 1, 3, 3] ∧ iou [0, 0, 2, 2] [1, 1, 3, 3] ≤ 1) ∧
    ((([0, 0, 2] : List ℚ).length ≠ 4 ∨ (([1, 1, 3, 3] : List ℚ).length ≠ 4)) ∧
      iou [0, 0, 2] [1, 1, 3, 3] = 0) ∧
    (((2 : ℚ) - 2 ≤ 0 ∨ (3 : ℚ) - 1 ≤ 0) ∧
      iou [2, 1, 2, 3] [0, 0, 4, 4] = 0 ∧ iou [0, 0, 4, 4] [2, 1, 2, 3] = 0) :=
  ⟨C9_iou_contract.1 [0, 0, 2, 2] [1, 1, 3, 3],
   ⟨Or.inl (by decide), C9_iou_contract.2.1 [0, 0, 2] [1, 1, 3, 3] (Or.inl (by decide))⟩,
   ⟨Or.inl (by norm_num),
    C9_iou_contract.2.2 2 1 2 3 [0, 0, 4, 4] (Or.inl (by norm_num))⟩⟩

/-! ### Claim C1 -/

/-- C1 counterexample: a detection whose record has no bounding box is NOT
skipped entirely: at `update([{category: "car", score: 0.5}], 0)` on a
fresh tracker it spawns a new track (the snapshot has one track and the id
counter advanced to 2), while the claim says it spawns no track. -/
theorem C1_counterexample :
    (update (mkTracker (3/10) 8) [⟨some "car", none, some (1/2)⟩] 0).2.length = 1 ∧
    (update (mkTracker (3/10) 8) [⟨some "car", none, some (1/2)⟩] 0).1.next_id = 2 := by
  decide

theorem dictAssign_self_mem (ts : List Track) (t : Track) : t ∈ dictAssign ts t := by
  unfold dictAssign
  split
  next h =>
    rcases List.any_eq_true.mp h with ⟨u, hu, hequ⟩
    exact List.mem_map.mpr ⟨u, hu, by rw [if_pos (by simpa using hequ)]⟩
  next => exact List.mem_append.mpr (Or.inr (List.mem_singleton_self t))

theorem birthStep_next_id_le (f : ℤ) (matched : List ℕ) (s : TrackerState)
    (p : ℕ × Detection) : s.next_id ≤ (birthStep f matched s p).next_id := by
  unfold birthStep
  split
  · exact le_refl _
  · exact Nat.le_succ _

theorem birthFold_creates (f : ℤ) (matched : List ℕ) :
    ∀ (L : List (ℕ × Detection)) (s : TrackerState) (i : ℕ) (d : Detection),
      (i, d) ∈ L → i ∉ matched →
      ∃ tid, s.next_id ≤ tid ∧ tid < (L.foldl (birthStep f matched) s).next_id ∧
        ({ track_id := tid, category := d.category.getD "unknown",
           bbox := d.bbox.getD [0, 0, 0, 0], score := d.score.getD 0,
           start_frame := f, last_frame := f, misses := 0 } : Track) ∈
          (L.foldl (birthStep f matched) s).tracks := by
  intro L
  induction L with
  | nil => intro s i d h _; exact absurd h (List.not_mem_nil _)
  | cons hd tl ih =>
    intro s i d hmem hnm
    rw [List.foldl_cons]
    rcases List.mem_cons.mp hmem with heq | hmem'
    · subst heq
      rw [birthStep_unmatched f matched s (i, d) hnm]
      refine ⟨s.next_id, le_refl _, ?_, ?_⟩
      · exact lt_of_lt_of_le (Nat.lt_succ_self s.next_id)
          (birthFold_next_id_le f matched tl (newTrack s d f))
      · refine birthFold_old_mem f matched tl (newTrack s d f) _ ?_ ?_
        · exact dictAssign_self_mem s.tracks _
        · exact Nat.lt_succ_self s.next_id
    · rcases ih (birthStep f matched s hd) i d hmem' hnm with ⟨tid, h1, h2, h3⟩
      exact ⟨tid, le_trans (birthStep_next_id_le f matched s hd) h1, h2, h3⟩

/-- C1 (amended): in every `update(detections, frame_id)` call, a detection
whose record has no bounding box is matched to no track (`_match_detection`
returns `None` for it against any candidate set, its index is never
recorded as matched, and the association step for it leaves the loop state
unchanged, so the rest of the batch is processed exactly as it would be
without it), but it is NOT skipped by the birth pass: it spawns a new track
with the default bbox `[0, 0, 0, 0]`, consuming a fresh track id; and when
`max_missed ≥ 1` (with live ids below the counter) that track even appears
in the returned snapshot, with `misses = 1`. -/
theorem C1_no_bbox (s : TrackerState) (dets : List Detection) (f : ℤ)
    (i : ℕ) (d : Detection) (hget : dets.get? i = some d) (hb : d.bbox = none) :
    (∀ (tracks : List Track) (thr : ℚ) (cand : List ℕ),
      matchDetection tracks thr d cand = none) ∧
    i ∉ (assocPass s dets f).matched_detection_indices ∧
    (∀ (ms : MatchState) (j : ℕ) (g : ℤ),
      assocStep s.iou_threshold g ms (j, d) = ms) ∧
    (∃ tid, s.next_id ≤ tid ∧ tid < (update s dets f).1.next_id ∧
      ({ track_id := tid, category := d.category.getD "unknown",
         bbox := [0, 0, 0, 0], score := d.score.getD 0,
         start_frame := f, last_frame := f, misses := 0 } : Track) ∈
        (birthPass { s with tracks := (assocPass s dets f).tracks } dets f
          (assocPass s dets f).matched_detection_indices).tracks ∧
      (idsBelow s → 1 ≤ s.max_missed →
        incMiss { track_id := tid, category := d.category.getD "unknown",
                  bbox := [0, 0, 0, 0], score := d.score.getD 0,
                  start_frame := f, last_frame := f,
                  misses := 0 } ∈ (update s dets f).2)) := by
  have henum : (i, d) ∈ dets.enum := by
    rw [List.mk_mem_enum_iff_getElem?, ← List.get?_eq_getElem?]
    exact hget
  have hnoidx : i ∉ (assocPass s dets f).matched_detection_indices := by
    intro hmem
    rcases assocFold_idx_some s.iou_threshold f dets.enum
        { tracks := s.tracks, available := s.tracks.map Track.track_id,
          matched_track_ids := [], matched_detection_indices := [] } i hmem with
      h | ⟨d2, hd2, hbs⟩
    · exact absurd h (List.not_mem_nil _)
    · rw [List.mk_mem_enum_iff_getElem?, ← List.get?_eq_getElem?, hget] at hd2
      rw [Option.some_inj.mp hd2.symm] at hbs
      rw [hb] at hbs
      exact absurd hbs (by simp)
  refine ⟨fun tracks thr cand => matchDetection_none_bbox tracks thr d cand hb,
    hnoidx,
    fun ms j g => assocStep_no_match _ _ _ _ (matchDetection_none_bbox _ _ _ _ hb),
    ?_⟩
  obtain ⟨tid, h1, h2, h3⟩ := birthFold_creates f
    (assocPass s dets f).matched_detection_indices dets.enum
    { s with tracks := (assocPass s dets f).tracks } i d henum hnoidx
  simp only [hb, Option.getD_none] at h3
  have h1' : s.next_id ≤ tid := h1
  refine ⟨tid, h1', by rw [update_fst_next_id]; exact h2, h3, ?_⟩
  intro hids hmax
  have hnm : tid ∉ (assocPass s dets f).matched_track_ids := by
    intro hmem
    rcases List.mem_map.mp (assocPass_matched_sub s dets f tid hmem) with ⟨t0, ht0, hid0⟩
    have hlt := hids t0 ht0
    omega
  rw [update_snd]
  refine (mem_pruneTracks _ _ _ _).mpr ⟨⟨_, h3, missTrack_not_matched _ _ hnm⟩, Or.inr ?_⟩
  show ((0 + 1 : ℕ) : ℤ) ≤ s.max_missed
  push_cast
  omega

/-- Witness for C1: a no-bbox person detection alongside a normal car
detection on a fresh tracker; the spawned default-bbox track is visible in
the snapshot with `misses = 1`. -/
theorem C1_no_bbox_witness :
    matchDetection [] (3/10) ⟨some "person", none, some (1/2)⟩ [] = none ∧
    (0 : ℕ) ∉ (assocPass (mkTracker (3/10) 8)
      [⟨some "person", none, some (1/2)⟩,
       ⟨some "car", some [0, 0, 2, 2], some (9/10)⟩] 0).matched_detection_indices ∧
    (∃ tid, (mkTracker (3/10) 8).next_id ≤ tid ∧
      tid < (update (mkTracker (3/10) 8)
        [⟨some "person", none, some (1/2)⟩,
         ⟨some "car", some [0, 0, 2, 2], some (9/10)⟩] 0).1.next_id ∧
      incMiss { track_id := tid, category := "person", bbox := [0, 0, 0, 0],
                score := 1/2, start_frame := 0, last_frame := 0,
                misses := 0 } ∈
        (update (mkTracker (3/10) 8)
          [⟨some "person", none, some (1/2)⟩,
           ⟨some "car", some [0, 0, 2, 2], some (9/10)⟩] 0).2) := by
  have h := C1_no_bbox (mkTracker (3/10) 8)
    [⟨some "person", none, some (1/2)⟩,
     ⟨some "car", some [0, 0, 2, 2], some (9/10)⟩] 0 0
    ⟨some "person", none, some (1/2)⟩ rfl rfl
  refine ⟨h.1 [] (3/10) [], h.2.1, ?_⟩
  obtain ⟨tid, h1, h2, _, h4⟩ := h.2.2.2
  exact ⟨tid, h1, h2, h4 (by decide) (by decide)⟩

/-! ### Claim C2 -/

/-- C2 counterexample: on a fresh tracker, the track born from the frame-0
detection appears in the snapshot of its birth call with `misses = 1`, not
`misses = 0` as the claim states. -/
theorem C2_counterexample :
    ((update (mkTracker (3/10) 8)
      [⟨some "car", some [0, 0, 2, 2], some (9/10)⟩] 0).2.map Track.misses) = [1] := by
  decide

/-- C2 (amended): every track created by the birth pass of an
`update(detections, frame_id)` call has `misses = 1` (not 0) when that call
returns: it is created with `misses = 0` but the miss-increment loop does
not exempt newborn tracks. -/
theorem C2_newborn_misses_one (s : TrackerState) (dets : List Detection) (f : ℤ)
    (hids : idsBelow s) :
    ∀ u ∈ (update s dets f).2, s.next_id ≤ u.track_id → u.misses = 1 := by
  intro u hu hge
  rw [update_snd] at hu
  rcases (mem_pruneTracks _ _ _ _).mp hu with ⟨⟨t, ht, hmt⟩, _⟩
  have hbt := birthFold_tracks_mem f (assocPass s dets f).matched_detection_indices
    dets.enum { s with tracks := (assocPass s dets f).tracks } t ht
  have hid : u.track_id = t.track_id := by rw [← hmt, missTrack_track_id]
  have htm : t.misses = 0 := by
    rcases hbt with h' | ⟨hm, _, _⟩
    · exfalso
      have hmem : t.track_id ∈ ((assocPass s dets f).tracks).map Track.track_id :=
        List.mem_map.mpr ⟨t, h', rfl⟩
      rw [assocPass_ids] at hmem
      rcases List.mem_map.mp hmem with ⟨t0, ht0, hid0⟩
      have hlt := hids t0 ht0
      omega
    · exact hm
  have hnm : t.track_id ∉ (assocPass s dets f).matched_track_ids := by
    intro hmem
    rcases List.mem_map.mp (assocPass_matched_sub s dets f t.track_id hmem)
      with ⟨t0, ht0, hid0⟩
    have hlt := hids t0 ht0
    omega
  rw [missTrack_not_matched _ _ hnm] at hmt
  rw [← hmt]
  show t.misses + 1 = 1
  rw [htm]

/-- Witness for C2: the fresh-tracker birth call; its newborn track has
`misses = 1` in the returned snapshot. -/
theorem C2_newborn_misses_one_witness :
    idsBelow (mkTracker (3/10) 8) ∧
    ∀ u ∈ (update (mkTracker (3/10) 8)
        [⟨some "car", some [0, 0, 2, 2], some (9/10)⟩] 0).2,
      (mkTracker (3/10) 8).next_id ≤ u.track_id → u.misses = 1 :=
  ⟨by decide, C2_newborn_misses_one (mkTracker (3/10) 8)
    [⟨some "car", some [0, 0, 2, 2], some (9/10)⟩] 0 (by decide)⟩

/-! ### Claim C3 -/

/-- C3 counterexample: in the spec's end-to-end scenario
(`iou_threshold = 0.2`, `max_missed = 2`), the `update([], 3)` call does
NOT return the empty list: the track is still present with `misses = 2`
because removal requires `misses > max_missed`. -/
theorem C3_counterexample :
    (update (update (update (update (mkTracker (2/10) 2)
        [⟨some "car", some [0, 0, 2, 2], some (9/10)⟩] 0).1
        [⟨some "car", some [1/10, 0, 21/10, 2], some (88/100)⟩] 1).1
        [] 2).1 [] 3).2.map (fun t => (t.track_id, t.misses)) = [(1, 2)] := by
  with_unfolding_all decide

/-- C3 (amended): in the scenario with `iou_threshold = 0.2`,
`max_missed = 2`: frame 0 returns one track with id 1; frame 1 returns one
track with id 1 and `last_frame = 1`; frame 2 (empty) returns the track
with `misses = 1`; frame 3 (empty) still returns the track, now with
`misses = 2`; only frame 4 (empty) returns the empty list. -/
theorem C3_scenario :
    ((update (mkTracker (2/10) 2)
        [⟨some "car", some [0, 0, 2, 2], some (9/10)⟩] 0).2.map Track.track_id = [1]) ∧
    ((update (update (mkTracker (2/10) 2)
        [⟨some "car", some [0, 0, 2, 2], some (9/10)⟩] 0).1
        [⟨some "car", some [1/10, 0, 21/10, 2], some (88/100)⟩] 1).2.map
          (fun t => (t.track_id, t.last_frame)) = [(1, 1)]) ∧
    ((update (update (update (mkTracker (2/10) 2)
        [⟨some "car", some [0, 0, 2, 2], some (9/10)⟩] 0).1
        [⟨some "car", some [1/10, 0, 21/10, 2], some (88/100)⟩] 1).1
        [] 2).2.map (fun t => (t.track_id, t.misses)) = [(1, 1)]) ∧
    ((update (update (update (update (mkTracker (2/10) 2)
        [⟨some "car", some [0, 0, 2, 2], some (9/10)⟩] 0).1
        [⟨some "car", some [1/10, 0, 21/10, 2], some (88/100)⟩] 1).1
        [] 2).1 [] 3).2.map (fun t => (t.track_id, t.misses)) = [(1, 2)]) ∧
    ((update (update (update (update (update (mkTracker (2/10) 2)
        [⟨some "car", some [0, 0, 2, 2], some (9/10)⟩] 0).1
        [⟨some "car", some [1/10, 0, 21/10, 2], some (88/100)⟩] 1).1
        [] 2).1 [] 3).1 [] 4).2 = []) := by
  with_unfolding_all decide

/-! ### Claim C4 -/

/-- C4 counterexample: a detection whose overlap with the only candidate
track is exactly `iou_threshold = 1/2` IS matched: the track is updated
(`misses = 0`, `last_frame = 1`) and no new track is spawned (counter stays
at 2), while the claim says a detection at exactly the threshold matches
no track. -/
theorem C4_counterexample :
    (update ⟨1/2, 8, [⟨1, "car", [0, 0, 1, 1], 9/10, 0, 0, 0⟩], 2⟩
        [⟨some "car", some [0, 0, 2, 1], some (8/10)⟩] 1).1.next_id = 2 ∧
    (update ⟨1/2, 8, [⟨1, "car", [0, 0, 1, 1], 9/10, 0, 0, 0⟩], 2⟩
        [⟨some "car", some [0, 0, 2, 1], some (8/10)⟩] 1).2.map
      (fun t => (t.track_id, t.misses, t.last_frame)) = [(1, 0, 1)] := by
  with_unfolding_all decide

/-- C4 (amended): the matching pass accepts a candidate whose best overlap
is greater than OR EQUAL to `iou_threshold` (the code tests
`best_iou >= iou_threshold`), provided the overlap is strictly positive;
conversely every accepted match has overlap ≥ `iou_threshold` and > 0. -/
theorem C4_match_threshold (tracks : List Track) (thr : ℚ) (det : Detection)
    (box : List ℚ) (cand : List ℕ) (tid : ℕ) (tr : Track)
    (hb : det.bbox = some box)
    (hmem : tid ∈ cand) (hf : findTrack tracks tid = some tr)
    (hc : ¬ catMismatch det.category tr.category)
    (hthr : thr ≤ iou box tr.bbox) (hpos : 0 < iou box tr.bbox) :
    (∃ mid, matchDetection tracks thr det cand = some mid) ∧
    (∀ mid, matchDetection tracks thr det cand = some mid →
      mid ∈ cand ∧ ∃ tr', findTrack tracks mid = some tr' ∧
        ¬ catMismatch det.category tr'.category ∧
        thr ≤ iou box tr'.bbox ∧ 0 < iou box tr'.bbox) :=
  ⟨matchDetection_isSome_of tracks thr det box cand tid tr hb hmem hf hc hthr hpos,
   fun mid h => matchDetection_sound tracks thr det box cand mid hb h⟩

/-- Witness for C4: the exactly-at-threshold configuration
(`iou = 1/2 = iou_threshold`). -/
theorem C4_match_threshold_witness :
    (∃ mid, matchDetection [⟨1, "car", [0, 0, 1, 1], 9/10, 0, 0, 0⟩] (1/2)
      ⟨some "car", some [0, 0, 2, 1], some (8/10)⟩ [1] = some mid) ∧
    (∀ mid, matchDetection [⟨1, "car", [0, 0, 1, 1], 9/10, 0, 0, 0⟩] (1/2)
        ⟨some "car", some [0, 0, 2, 1], some (8/10)⟩ [1] = some mid →
      mid ∈ [1] ∧ ∃ tr', findTrack [⟨1, "car", [0, 0, 1, 1], 9/10, 0, 0, 0⟩] mid = some tr' ∧
        ¬ catMismatch (some "car") tr'.category ∧
        (1/2 : ℚ) ≤ iou [0, 0, 2, 1] tr'.bbox ∧ 0 < iou [0, 0, 2, 1] tr'.bbox) :=
  C4_match_threshold [⟨1, "car", [0, 0, 1, 1], 9/10, 0, 0, 0⟩] (1/2)
    ⟨some "car", some [0, 0, 2, 1], some (8/10)⟩ [0, 0, 2, 1] [1] 1
    ⟨1, "car", [0, 0, 1, 1], 9/10, 0, 0, 0⟩ rfl (by decide)
    (by with_unfolding_all decide) (by decide)
    (by with_unfolding_all decide) (by with_unfolding_all decide)

/-! ### Claim C5 -/

theorem update_nil (s : TrackerState) (f : ℤ) :
    update s [] f = ({ s with tracks := pruneTracks s.max_missed [] s.tracks },
      pruneTracks s.max_missed [] s.tracks) := rfl

theorem incMiss_mem_update_nil (s : TrackerState) (f : ℤ) (t : Track)
    (ht : t ∈ s.tracks) (h : (t.misses : ℤ) + 1 ≤ s.max_missed) :
    incMiss t ∈ (update s [] f).2 := by
  rw [update_nil]
  refine (mem_pruneTracks _ _ _ _).mpr
    ⟨⟨t, ht, missTrack_not_matched [] t (List.not_mem_nil _)⟩, Or.inr ?_⟩
  show ((t.misses + 1 : ℕ) : ℤ) ≤ s.max_missed
  push_cast
  exact h

/-- C5: after every `update` call (with `max_missed ≥ 0`), every surviving
track satisfies `misses ≤ max_missed`; the live set and the returned
snapshot coincide, so a track whose misses exceed `max_missed` never
appears in the snapshot; and on a missed frame a track whose incremented
miss count is still at most `max_missed` (in particular exactly
`max_missed`) stays present. -/
theorem C5_misses_bounded (s : TrackerState) (dets : List Detection) (f : ℤ)
    (hmm : 0 ≤ s.max_missed) :
    (∀ u ∈ (update s dets f).2, (u.misses : ℤ) ≤ s.max_missed) ∧
    (update s dets f).1.tracks = (update s dets f).2 ∧
    (∀ t ∈ s.tracks, (t.misses : ℤ) + 1 ≤ s.max_missed →
      incMiss t ∈ (update s [] f).2) := by
  refine ⟨?_, rfl, fun t ht h => incMiss_mem_update_nil s f t ht h⟩
  intro u hu
  rw [update_snd] at hu
  rcases (mem_pruneTracks _ _ _ _).mp hu with ⟨⟨t, ht, hmt⟩, hkeep⟩
  rcases hkeep with hmem | hle
  · -- u was matched this frame: its misses were reset to 0
    have hid : u.track_id = t.track_id := by rw [← hmt, missTrack_track_id]
    have hmem' : t.track_id ∈ (assocPass s dets f).matched_track_ids := hid ▸ hmem
    have hu_eq : u = t := by rw [← hmt, missTrack_matched _ _ hmem']
    have htm : t.misses = 0 := by
      rcases birthFold_tracks_mem f (assocPass s dets f).matched_detection_indices
        dets.enum { s with tracks := (assocPass s dets f).tracks } t ht with h' | ⟨hm, _, _⟩
      · exact assocPass_matched_misses s dets f t h' hmem'
      · exact hm
    rw [hu_eq, htm]
    exact_mod_cast hmm
  · exact hle

/-- Witness for C5 on a concrete one-track state and an empty frame. -/
theorem C5_misses_bounded_witness :
    (0 : ℤ) ≤ (⟨3/10, 8, [⟨1, "car", [0, 0, 1, 1], 1/2, 0, 0, 0⟩], 2⟩ :
        TrackerState).max_missed ∧
    ((∀ u ∈ (update ⟨3/10, 8, [⟨1, "car", [0, 0, 1, 1], 1/2, 0, 0, 0⟩], 2⟩ [] 5).2,
        (u.misses : ℤ) ≤ (8 : ℤ)) ∧
      (∀ t ∈ (⟨3/10, 8, [⟨1, "car", [0, 0, 1, 1], 1/2, 0, 0, 0⟩], 2⟩ :
          TrackerState).tracks,
        (t.misses : ℤ) + 1 ≤ (8 : ℤ) →
        incMiss t ∈ (update ⟨3/10, 8, [⟨1, "car", [0, 0, 1, 1], 1/2, 0, 0, 0⟩], 2⟩ [] 5).2)) :=
  ⟨by decide,
   (C5_misses_bounded ⟨3/10, 8, [⟨1, "car", [0, 0, 1, 1], 1/2, 0, 0, 0⟩], 2⟩ [] 5
      (by decide)).1,
   (C5_misses_bounded ⟨3/10, 8, [⟨1, "car", [0, 0, 1, 1], 1/2, 0, 0, 0⟩], 2⟩ [] 5
      (by decide)).2.2⟩

/-! ### Claim C6 -/

theorem pruneTracks_ids_sublist (mm : ℤ) (matched : List ℕ) (ts : List Track) :
    ((pruneTracks mm matched ts).map Track.track_id).Sublist
      (ts.map Track.track_id) := by
  unfold pruneTracks
  have h2 : ((ts.map (missTrack matched)).map Track.track_id) = ts.map Track.track_id := by
    rw [List.map_map]
    exact List.map_congr_left fun t _ => missTrack_track_id matched t
  rw [← h2]
  exact List.Sublist.map _ (List.filter_sublist _)

theorem pruneTracks_mem_src (mm : ℤ) (matched : List ℕ) (ts : List Track)
    (u : Track) (hu : u ∈ pruneTracks mm matched ts) :
    ∃ t ∈ ts, u.track_id = t.track_id := by
  rcases (mem_pruneTracks _ _ _ _).mp hu with ⟨⟨t, ht, hmt⟩, _⟩
  exact ⟨t, ht, by rw [← hmt, missTrack_track_id]⟩

/-- C6: track ids are positive, assigned in strictly increasing order, and
never reused: the id discipline `Inv` (ids in `[1, _next_id)`, pairwise
distinct, counter at least 1) holds for a fresh tracker and is preserved by
every `update` call; the counter never decreases; and every live track
after a call either carries an id that was live before the call or a
freshly assigned id at least the old counter value. -/
theorem C6_track_id_discipline (th : ℚ) (mm : ℤ) (s : TrackerState)
    (dets : List Detection) (f : ℤ) (hinv : Inv s) :
    Inv (mkTracker th mm) ∧
    Inv (update s dets f).1 ∧
    s.next_id ≤ (update s dets f).1.next_id ∧
    (∀ u ∈ (update s dets f).1.tracks,
      u.track_id ∈ s.tracks.map Track.track_id ∨ s.next_id ≤ u.track_id) := by
  obtain ⟨hbound, hnodup, hone⟩ := hinv
  -- the association pass keeps the same id list
  have hmsb : ∀ t ∈ (assocPass s dets f).tracks,
      1 ≤ t.track_id ∧ t.track_id < s.next_id := by
    intro t ht
    have : t.track_id ∈ ((assocPass s dets f).tracks).map Track.track_id :=
      List.mem_map.mpr ⟨t, ht, rfl⟩
    rw [assocPass_ids] at this
    rcases List.mem_map.mp this with ⟨t0, ht0, hid0⟩
    exact hid0 ▸ hbound t0 ht0
  have hmsn : (((assocPass s dets f).tracks).map Track.track_id).Nodup := by
    rw [assocPass_ids]
    exact hnodup
  -- the birth pass preserves the discipline
  have hb := birthFold_inv f (assocPass s dets f).matched_detection_indices
    dets.enum { s with tracks := (assocPass s dets f).tracks } hmsb hmsn hone
  refine ⟨?_, ⟨?_, ?_, ?_⟩, ?_, ?_⟩
  · simp [Inv, mkTracker]
  · -- bounds after pruning
    intro u hu
    rw [update_fst_tracks, update_snd] at hu
    rcases pruneTracks_mem_src _ _ _ u hu with ⟨t, ht, hid⟩
    rw [update_fst_next_id, hid]
    exact hb.1 t ht
  · -- distinct ids after pruning
    rw [update_fst_tracks, update_snd]
    exact (pruneTracks_ids_sublist _ _ _).nodup hb.2.1
  · -- counter at least 1 after the call
    rw [update_fst_next_id]
    exact le_trans hone (birthFold_next_id_le f
      (assocPass s dets f).matched_detection_indices dets.enum
      { s with tracks := (assocPass s dets f).tracks })
  · -- counter never decreases
    rw [update_fst_next_id]
    exact birthFold_next_id_le f (assocPass s dets f).matched_detection_indices
      dets.enum { s with tracks := (assocPass s dets f).tracks }
  · -- old id or freshly assigned id
    intro u hu
    rw [update_fst_tracks, update_snd] at hu
    rcases (mem_pruneTracks _ _ _ _).mp hu with ⟨⟨t, ht, hmt⟩, _⟩
    have hid : u.track_id = t.track_id := by rw [← hmt, missTrack_track_id]
    rcases birthFold_tracks_mem f (assocPass s dets f).matched_detection_indices
      dets.enum { s with tracks := (assocPass s dets f).tracks } t ht with h' | ⟨_, hge, _, _⟩
    · left
      have : t.track_id ∈ ((assocPass s dets f).tracks).map Track.track_id :=
        List.mem_map.mpr ⟨t, h', rfl⟩
      rw [assocPass_ids] at this
      exact hid ▸ this
    · right
      exact hid ▸ hge

/-- Witness for C6 on a concrete one-track state. -/
theorem C6_track_id_discipline_witness :
    Inv (mkTracker (3/10) 8) ∧
    Inv (update ⟨3/10, 8, [⟨1, "car", [0, 0, 1, 1], 1/2, 0, 0, 0⟩], 2⟩ [] 0).1 ∧
    (⟨3/10, 8, [⟨1, "car", [0, 0, 1, 1], 1/2, 0, 0, 0⟩], 2⟩ : TrackerState).next_id ≤
      (update ⟨3/10, 8, [⟨1, "car", [0, 0, 1, 1], 1/2, 0, 0, 0⟩], 2⟩ [] 0).1.next_id ∧
    (∀ u ∈ (update ⟨3/10, 8, [⟨1, "car", [0, 0, 1, 1], 1/2, 0, 0, 0⟩], 2⟩ [] 0).1.tracks,
      u.track_id ∈ (⟨3/10, 8, [⟨1, "car", [0, 0, 1, 1], 1/2, 0, 0, 0⟩], 2⟩ :
          TrackerState).tracks.map Track.track_id ∨
        (⟨3/10, 8, [⟨1, "car", [0, 0, 1, 1], 1/2, 0, 0, 0⟩], 2⟩ :
          TrackerState).next_id ≤ u.track_id) :=
  C6_track_id_discipline (3/10) 8 ⟨3/10, 8, [⟨1, "car", [0, 0, 1, 1], 1/2, 0, 0, 0⟩], 2⟩
    [] 0 (by decide)

/-! ### Claim C8 -/

theorem update_id_not_revived (s : TrackerState) (dets : List Detection) (f : ℤ)
    (tid : ℕ) (h1 : ∀ t ∈ s.tracks, t.track_id ≠ tid) (h2 : tid < s.next_id) :
    (∀ t ∈ (update s dets f).1.tracks, t.track_id ≠ tid) ∧
      tid < (update s dets f).1.next_id := by
  constructor
  · intro u hu
    rw [update_fst_tracks, update_snd] at hu
    rcases (mem_pruneTracks _ _ _ _).mp hu with ⟨⟨t, ht, hmt⟩, _⟩
    have hid : u.track_id = t.track_id := by rw [← hmt, missTrack_track_id]
    rcases birthFold_tracks_mem f (assocPass s dets f).matched_detection_indices
      dets.enum { s with tracks := (assocPass s dets f).tracks } t ht with h' | ⟨_, hge, _, _⟩
    · have hmem : t.track_id ∈ ((assocPass s dets f).tracks).map Track.track_id :=
        List.mem_map.mpr ⟨t, h', rfl⟩
      rw [assocPass_ids] at hmem
      rcases List.mem_map.mp hmem with ⟨t0, ht0, hid0⟩
      intro heq
      apply h1 t0 ht0
      omega
    · intro heq
      have hge' : s.next_id ≤ t.track_id := hge
      omega
  · rw [update_fst_next_id]
    exact lt_of_lt_of_le h2 (birthFold_next_id_le f
      (assocPass s dets f).matched_detection_indices dets.enum
      { s with tracks := (assocPass s dets f).tracks })

theorem runUpdates_id_not_revived (tid : ℕ) :
    ∀ (calls : List (List Detection × ℤ)) (s : TrackerState),
      (∀ t ∈ s.tracks, t.track_id ≠ tid) → tid < s.next_id →
      ∀ t ∈ (runUpdates s calls).tracks, t.track_id ≠ tid := by
  intro calls
  induction calls with
  | nil => intro s h1 _ t ht; exact h1 t ht
  | cons c rest ih =>
    intro s h1 h2
    have hstep := update_id_not_revived s c.1 c.2 tid h1 h2
    exact ih (update s c.1 c.2).1 hstep.1 hstep.2

/-- C8: an `update([], frame_id)` call keeps the id counter, turns the live
set into exactly the pruning of the old one (each survivor is an old track
with only `misses` incremented by 1, all other fields unchanged; no track
is added), keeps every track whose incremented miss count is within
`max_missed`, and an id absent from the live set and below the counter
(i.e. a previously removed id) never reappears in any later call's
result. -/
theorem C8_empty_update (s : TrackerState) (f : ℤ) :
    (update s [] f).1.next_id = s.next_id ∧
    (update s [] f).2 = pruneTracks s.max_missed [] s.tracks ∧
    (∀ u ∈ (update s [] f).2, ∃ t ∈ s.tracks, u = incMiss t) ∧
    (∀ t ∈ s.tracks, (t.misses : ℤ) + 1 ≤ s.max_missed →
      incMiss t ∈ (update s [] f).2) ∧
    (∀ tid : ℕ, (∀ t ∈ s.tracks, t.track_id ≠ tid) → tid < s.next_id →
      ∀ calls : List (List Detection × ℤ),
        ∀ t ∈ (runUpdates (update s [] f).1 calls).tracks, t.track_id ≠ tid) := by
  refine ⟨rfl, rfl, ?_, fun t ht h => incMiss_mem_update_nil s f t ht h, ?_⟩
  · intro u hu
    rw [update_nil] at hu
    rcases (mem_pruneTracks _ _ _ _).mp hu with ⟨⟨t, ht, hmt⟩, _⟩
    refine ⟨t, ht, ?_⟩
    rw [← hmt, missTrack_not_matched [] t (List.not_mem_nil _)]
  · intro tid h1 h2 calls
    have hstep := update_id_not_revived s [] f tid h1 h2
    exact runUpdates_id_not_revived tid calls (update s [] f).1 hstep.1 hstep.2

/-- Witness for C8 on a concrete state whose counter has already passed the
removed id 1. -/
theorem C8_empty_update_witness :
    (update ⟨3/10, 8, [⟨2, "car", [0, 0, 1, 1], 1/2, 0, 0, 0⟩], 3⟩ [] 7).1.next_id =
      (⟨3/10, 8, [⟨2, "car", [0, 0, 1, 1], 1/2, 0, 0, 0⟩], 3⟩ : TrackerState).next_id ∧
    (∀ t ∈ (runUpdates
        (update ⟨3/10, 8, [⟨2, "car", [0, 0, 1, 1], 1/2, 0, 0, 0⟩], 3⟩ [] 7).1
        [([], 8)]).tracks, t.track_id ≠ 1) :=
  ⟨(C8_empty_update ⟨3/10, 8, [⟨2, "car", [0, 0, 1, 1], 1/2, 0, 0, 0⟩], 3⟩ 7).1,
   (C8_empty_update ⟨3/10, 8, [⟨2, "car", [0, 0, 1, 1], 1/2, 0, 0, 0⟩], 3⟩ 7).2.2.2.2
     1 (by decide) (by decide) [([], 8)]⟩

/-! ### Claim C10 -/

/-- C10: with `max_missed ≤ 0`, every track created by the birth pass of an
`update` call is pruned before that call returns: the snapshot only ever
contains ids that were live before the call (all below the old counter),
while the counter still advances by one for every unmatched detection. -/
theorem C10_max_missed_nonpos (s : TrackerState) (dets : List Detection) (f : ℤ)
    (hmm : s.max_missed ≤ 0) (hids : idsBelow s) :
    (∀ u ∈ (update s dets f).2, u.track_id < s.next_id) ∧
    (update s dets f).1.next_id = s.next_id +
      (dets.enum.filter (fun p =>
        decide (p.1 ∉ (assocPass s dets f).matched_detection_indices))).length := by
  constructor
  · intro u hu
    rw [update_snd] at hu
    rcases (mem_pruneTracks _ _ _ _).mp hu with ⟨⟨t, ht, hmt⟩, hkeep⟩
    have hid : u.track_id = t.track_id := by rw [← hmt, missTrack_track_id]
    have hmem_case : u.track_id ∈ (assocPass s dets f).matched_track_ids →
        u.track_id < s.next_id := by
      intro hmem
      rcases List.mem_map.mp (assocPass_matched_sub s dets f _ hmem) with ⟨t0, ht0, hid0⟩
      have hlt := hids t0 ht0
      omega
    rcases hkeep with hmem | hle
    · exact hmem_case hmem
    · by_cases hm : t.track_id ∈ (assocPass s dets f).matched_track_ids
      · exact hmem_case (hid ▸ hm)
      · exfalso
        rw [missTrack_not_matched _ _ hm] at hmt
        have hinc : u.misses = t.misses + 1 := by rw [← hmt]; rfl
        omega
  · rw [update_fst_next_id]
    exact birthFold_next_id f (assocPass s dets f).matched_detection_indices
      dets.enum { s with tracks := (assocPass s dets f).tracks }

/-- Witness for C10: a fresh tracker with `max_missed = 0` swallows the
frame-0 detection without ever exposing the track. -/
theorem C10_max_missed_nonpos_witness :
    (∀ u ∈ (update (mkTracker (3/10) 0)
        [⟨some "car", some [0, 0, 2, 2], some (9/10)⟩] 0).2,
      u.track_id < (mkTracker (3/10) 0).next_id) ∧
    (update (mkTracker (3/10) 0)
        [⟨some "car", some [0, 0, 2, 2], some (9/10)⟩] 0).1.next_id =
      (mkTracker (3/10) 0).next_id +
        (([⟨some "car", some [0, 0, 2, 2], some (9/10)⟩] : List Detection).enum.filter
          (fun p => decide (p.1 ∉ (assocPass (mkTracker (3/10) 0)
            [⟨some "car", some [0, 0, 2, 2], some (9/10)⟩]
            0).matched_detection_indices))).length :=
  C10_max_missed_nonpos (mkTracker (3/10) 0)
    [⟨some "car", some [0, 0, 2, 2], some (9/10)⟩] 0 (by decide) (by decide)

/-! ### Claim C7 -/

/-- C7: if the live set is exactly one track and the single detection
carries that track's category and overlaps the track's current bbox at
least `iou_threshold` (with `iou_threshold > 0`), the call matches the
detection to the track: the returned snapshot and the new live set are the
single refreshed track with the same `track_id` (same category, updated
`last_frame`, `misses = 0`), so the id persists across successive such
frames. -/
theorem C7_stable_id (s : TrackerState) (t : Track) (det : Detection)
    (box : List ℚ) (f : ℤ)
    (htracks : s.tracks = [t]) (hb : det.bbox = some box)
    (hcat : det.category = some t.category)
    (hiou : s.iou_threshold ≤ iou box t.bbox) (hpos : 0 < s.iou_threshold) :
    (update s [det] f).1.tracks = [applyMatch det f t.track_id t] ∧
    (update s [det] f).2 = [applyMatch det f t.track_id t] ∧
    (applyMatch det f t.track_id t).track_id = t.track_id ∧
    (applyMatch det f t.track_id t).category = t.category ∧
    (applyMatch det f t.track_id t).last_frame = f ∧
    (applyMatch det f t.track_id t).misses = 0 := by
  obtain ⟨thr, mm, tracks, nid⟩ := s
  dsimp only at htracks hiou hpos
  subst htracks
  have hfind : findTrack [t] t.track_id = some t := by
    unfold findTrack
    simp
  have hnc : ¬ catMismatch det.category t.category := by
    rw [hcat]
    unfold catMismatch
    simp
  have hiou0 : 0 < iou box t.bbox := lt_of_lt_of_le hpos hiou
  have hmd : matchDetection [t] thr det [t.track_id] = some t.track_id := by
    obtain ⟨mid, hmid⟩ := matchDetection_isSome_of [t] thr det box [t.track_id]
      t.track_id t hb (List.mem_singleton_self _) hfind hnc hiou hiou0
    have hmid_eq : mid = t.track_id :=
      List.mem_singleton.mp (matchDetection_mem _ _ _ _ _ hmid)
    exact hmid_eq ▸ hmid
  have htid : (applyMatch det f t.track_id t).track_id = t.track_id :=
    applyMatch_track_id det f _ t
  have hassoc : assocPass ⟨thr, mm, [t], nid⟩ [det] f =
      { tracks := [applyMatch det f t.track_id t],
        available := [],
        matched_track_ids := [t.track_id],
        matched_detection_indices := [0] } := by
    unfold assocPass
    rw [show ([det] : List Detection).enum = [(0, det)] from rfl,
      List.foldl_cons, List.foldl_nil]
    unfold assocStep
    dsimp only
    simp only [List.map_cons, List.map_nil]
    rw [hmd]
    simp [List.erase_cons_head]
  have hbirth : birthPass ⟨thr, mm, [applyMatch det f t.track_id t], nid⟩ [det] f [0] =
      ⟨thr, mm, [applyMatch det f t.track_id t], nid⟩ := by
    unfold birthPass
    rw [show ([det] : List Detection).enum = [(0, det)] from rfl,
      List.foldl_cons, List.foldl_nil]
    unfold birthStep
    rw [if_pos (show ((0 : ℕ), det).1 ∈ [0] from List.mem_singleton_self 0)]
  have hkeep : keepTrack mm [t.track_id] (applyMatch det f t.track_id t) :=
    Or.inl (by rw [htid]; exact List.mem_singleton_self _)
  have hprune : pruneTracks mm [t.track_id] [applyMatch det f t.track_id t] =
      [applyMatch det f t.track_id t] := by
    unfold pruneTracks
    rw [List.map_cons, List.map_nil,
      missTrack_matched _ _ (by rw [htid]; exact List.mem_singleton_self _),
      List.filter_cons, if_pos (decide_eq_true hkeep), List.filter_nil]
  have hmain : (update ⟨thr, mm, [t], nid⟩ [det] f).2 =
      [applyMatch det f t.track_id t] := by
    rw [update_snd, hassoc]
    dsimp only
    rw [hbirth]
    exact hprune
  refine ⟨?_, hmain, htid, ?_, ?_, ?_⟩
  · rw [update_fst_tracks]
    exact hmain
  · unfold applyMatch
    rw [if_pos rfl]
  · unfold applyMatch
    rw [if_pos rfl]
  · unfold applyMatch
    rw [if_pos rfl]

/-- Witness for C7: a car track drifting by 0.1 units with threshold 0.3
keeps id 1. -/
theorem C7_stable_id_witness :
    (update ⟨3/10, 8, [⟨1, "car", [0, 0, 2, 2], 1/2, 0, 0, 0⟩], 2⟩
        [⟨some "car", some [1/10, 0, 21/10, 2], some (3/4)⟩] 1).1.tracks =
      [applyMatch ⟨some "car", some [1/10, 0, 21/10, 2], some (3/4)⟩ 1 1
        ⟨1, "car", [0, 0, 2, 2], 1/2, 0, 0, 0⟩] ∧
    (update ⟨3/10, 8, [⟨1, "car", [0, 0, 2, 2], 1/2, 0, 0, 0⟩], 2⟩
        [⟨some "car", some [1/10, 0, 21/10, 2], some (3/4)⟩] 1).2 =
      [applyMatch ⟨some "car", some [1/10, 0, 21/10, 2], some (3/4)⟩ 1 1
        ⟨1, "car", [0, 0, 2, 2], 1/2, 0, 0, 0⟩] ∧
    (applyMatch ⟨some "car", some [1/10, 0, 21/10, 2], some (3/4)⟩ 1 1
      ⟨1, "car", [0, 0, 2, 2], 1/2, 0, 0, 0⟩).track_id = 1 ∧
    (applyMatch ⟨some "car", some [1/10, 0, 21/10, 2], some (3/4)⟩ 1 1
      ⟨1, "car", [0, 0, 2, 2], 1/2, 0, 0, 0⟩).category = "car" ∧
    (applyMatch ⟨some "car", some [1/10, 0, 21/10, 2], some (3/4)⟩ 1 1
      ⟨1, "car", [0, 0, 2, 2], 1/2, 0, 0, 0⟩).last_frame = 1 ∧
    (applyMatch ⟨some "car", some [1/10, 0, 21/10, 2], some (3/4)⟩ 1 1
      ⟨1, "car", [0, 0, 2, 2], 1/2, 0, 0, 0⟩).misses = 0 :=
  C7_stable_id ⟨3/10, 8, [⟨1, "car", [0, 0, 2, 2], 1/2, 0, 0, 0⟩], 2⟩
    ⟨1, "car", [0, 0, 2, 2], 1/2, 0, 0, 0⟩
    ⟨some "car", some [1/10, 0, 21/10, 2], some (3/4)⟩ [1/10, 0, 21/10, 2] 1
    rfl rfl rfl (by with_unfolding_all decide) (by with_unfolding_all decide)

end ObjectTracking
